import Mathlib

/-!
Shallow embedding of the MSD analysis core (src/msd.py): the MSD engine
`compute_msd` and the diffusion fitter `fit_d`, over exact rationals.
Trajectories are modelled as index functions (frame, atom, axis) → ℚ with an
explicit shape (F frames, N atoms, 3 axes); numpy arrays become lists of
rationals, numpy arange, Python round (banker rounding) and Python slicing are
modelled explicitly, and routines that can raise return Except.
-/

/-- Length of numpy arange(start, stop, step): ceil((stop - start) / step)
clamped to be nonnegative, for a nonzero step. A zero step raises in numpy;
callers guard that case. -/
def arangeLen (start stop step : ℤ) : ℕ :=
  if 0 < step then ((stop - start).toNat + (step.toNat - 1)) / step.toNat
  else if step < 0 then ((start - stop).toNat + ((-step).toNat - 1)) / (-step).toNat
  else 0

/-- numpy arange(start, stop, step) as a list of integers. -/
def arange (start stop step : ℤ) : List ℤ :=
  (List.range (arangeLen start stop step)).map (fun k : ℕ => start + step * (k : ℤ))

/-- The error numpy arange raises on a zero step (ZeroDivisionError). -/
inductive ArangeError
  | zeroStep
  deriving DecidableEq

/-- The error np.polyfit raises on an empty x vector (TypeError, expected
non-empty vector for x). -/
inductive FitError
  | emptyVector
  deriving DecidableEq

/-- Sum of squared per-axis displacements of atom a at lag L: source lines
56-60, the slice MSD_mat[:, a, :] of np.square(mat1 - mat2), summed. Row i of
mat1 is frame i for i in arange(start_frame, end_frame - L); the matching row
of mat2 is frame i + L. -/
def sqDispSum (x : ℕ → ℕ → ℕ → ℚ) (F sf L a : ℕ) : ℚ :=
  ∑ i ∈ Finset.Ico sf (F - L), ∑ ax ∈ Finset.range 3, (x i a ax - x (i + L) a ax) ^ 2

/-- np.sum(MSD_mat): the squared displacements summed over all atoms as well. -/
def msdTotal (x : ℕ → ℕ → ℕ → ℚ) (F N sf L : ℕ) : ℚ :=
  ∑ a ∈ Finset.range N, sqDispSum x F sf L a

/-- MSD_mat.size: number of entries of the (pairs, N, 3) displacement array. -/
def msdSize (F N sf L : ℕ) : ℕ :=
  ((F - L) - sf) * N * 3

/-- ave_MSD at lag L: (np.sum(MSD_mat) / MSD_mat.size) * 3.0, source line 63. -/
def aveMSD (x : ℕ → ℕ → ℕ → ℚ) (F N sf L : ℕ) : ℚ :=
  msdTotal x F N sf L / ((msdSize F N sf L : ℕ) : ℚ) * 3

/-- ave_atom_MSD for atom a at lag L: source line 69, the same mean restricted
to the slice MSD_mat[:, a, :] of size pairs * 3. -/
def aveAtomMSD (x : ℕ → ℕ → ℕ → ℚ) (F sf L a : ℕ) : ℚ :=
  sqDispSum x F sf L a / (((((F - L) - sf) * 3 : ℕ)) : ℚ) * 3

/-- compute_msd(xyz, step_jump, start_frame), source lines 10-76. The lag set
is np.arange(0, end_frame - start_frame, step_jump); for each lag the average
and the per-atom MSD are computed; the atomic matrix has one row per atom. A
zero step_jump raises inside np.arange. -/
def compute_msd (x : ℕ → ℕ → ℕ → ℚ) (F N : ℕ) (step_jump : ℤ) (start_frame : ℕ) :
    Except ArangeError (List ℚ × List (List ℚ)) :=
  if step_jump = 0 then .error .zeroStep
  else
    let lags := arange 0 ((F : ℤ) - (start_frame : ℤ)) step_jump
    .ok (lags.map (fun L => aveMSD x F N start_frame L.toNat),
      (List.range N).map (fun a => lags.map (fun L => aveAtomMSD x F start_frame L.toNat a)))

/-- Python round(q): round half to even (banker rounding). -/
def pyRound (q : ℚ) : ℤ :=
  let f := ⌊q⌋
  if q - f < 1 / 2 then f
  else if q - f > 1 / 2 then f + 1
  else if f % 2 = 0 then f else f + 1

/-- Normalize a Python slice bound: negative indices count from the end, and
both ends clamp into [0, n]. -/
def pyIndex (n : ℕ) (i : ℤ) : ℕ :=
  (if i < 0 then max (i + n) 0 else min i n).toNat

/-- Python list slice l[lo:hi]. -/
def pySlice (l : List ℚ) (lo hi : ℤ) : List ℚ :=
  (l.drop (pyIndex l.length lo)).take (pyIndex l.length hi - pyIndex l.length lo)

/-- frame_bound, source line 99, kept faithful to the source: BOTH bounds are
computed from frac_range[0] (the lower fraction appears twice). -/
def frame_bound (nf : ℕ) (frac_range : ℚ × ℚ) : ℤ × ℤ :=
  (pyRound ((nf : ℚ) * frac_range.1), pyRound ((nf : ℚ) * frac_range.1))

/-- np.polyfit(x, y, 1): ordinary least squares for a degree-1 polynomial,
returning (slope, intercept). An empty x vector raises. (For a rank-deficient
nonempty system numpy falls back to a minimum-norm solution with a RankWarning;
that branch is never reached by fit_d, whose slices are always empty or of
positive length with the formulas below.) -/
def polyfit1 (xv yv : List ℚ) : Except FitError (ℚ × ℚ) :=
  if xv.length = 0 then .error .emptyVector
  else
    let n : ℚ := (xv.length : ℚ)
    let sx := xv.sum
    let sy := yv.sum
    let sxx := (xv.map (fun t => t ^ 2)).sum
    let sxy := (List.zipWith (fun t y => t * y) xv yv).sum
    let det := n * sxx - sx ^ 2
    .ok ((n * sxy - sx * sy) / det, (sxx * sy - sx * sxy) / det)

/-- Source lines 107-115: D_nm2_ps = coeff[0] / 6.0, then conversion to
cm^2/s by the factor 10^14 / 10^12. -/
def slope_to_D (slope : ℚ) : ℚ :=
  let D_nm2_ps := slope / 6
  let nm2_2_cm2 : ℚ := 10 ^ 14
  let ps_2_s : ℚ := 10 ^ 12
  let unit_coeff := nm2_2_cm2 / ps_2_s
  D_nm2_ps * unit_coeff

/-- fit_d(MSD, times, frac_range), source lines 78-116: compute the window
bounds, slice both curves, fit a line and convert the slope. -/
def fit_d (MSD times : List ℚ) (frac_range : ℚ × ℚ) : Except FitError ℚ :=
  let nf := MSD.length
  let fb := frame_bound nf frac_range
  let MSD_fit := pySlice MSD fb.1 fb.2
  let times_fit := pySlice times fb.1 fb.2
  Except.map (fun coeff => slope_to_D coeff.1) (polyfit1 times_fit MSD_fit)

/-- Spec-side index set for the trajectory-averaged MSD at lag L: all
(pair start, particle, axis) triples, pair starts in [start_frame, F - L). -/
def tripleSet (F N sf L : ℕ) : Finset (ℕ × ℕ × ℕ) :=
  Finset.Ico sf (F - L) ×ˢ (Finset.range N ×ˢ Finset.range 3)

/-- Spec-side formula: 3 times the mean of the squared per-axis displacements
between frames i and i + L over all (pair start, particle, axis) triples. -/
def specMSD (x : ℕ → ℕ → ℕ → ℚ) (F N sf L : ℕ) : ℚ :=
  3 * ((∑ t ∈ tripleSet F N sf L, (x t.1 t.2.1 t.2.2 - x (t.1 + L) t.2.1 t.2.2) ^ 2) /
    ((tripleSet F N sf L).card : ℚ))

/-- Spec-side index set for the per-particle MSD: (pair start, axis) pairs. -/
def pairAxisSet (F sf L : ℕ) : Finset (ℕ × ℕ) :=
  Finset.Ico sf (F - L) ×ˢ Finset.range 3

/-- Spec-side formula for particle a: 3 times the mean of the squared per-axis
displacements of particle a alone, over pair starts and the 3 axes. -/
def specAtomMSD (x : ℕ → ℕ → ℕ → ℚ) (F sf L a : ℕ) : ℚ :=
  3 * ((∑ p ∈ pairAxisSet F sf L, (x p.1 a p.2 - x (p.1 + L) a p.2) ^ 2) /
    ((pairAxisSet F sf L).card : ℚ))

/-- Concrete test trajectory: one populated axis, particle position i at
frame i (the concrete scenario of the spec, x = [0, 1, 2, 3, 4] nm). -/
def trajX : ℕ → ℕ → ℕ → ℚ :=
  fun i _ ax => if ax = 0 then (i : ℚ) else 0

lemma arange_length (start stop step : ℤ) :
    (arange start stop step).length = arangeLen start stop step := by
  rw [arange, List.length_map, List.length_range]

lemma arange_getElem (start stop step : ℤ) (k : ℕ) (hk : k < arangeLen start stop step) :
    (arange start stop step)[k]? = some (start + step * k) := by
  rw [arange, List.getElem?_map, List.getElem?_range hk]
  rfl

lemma arangeLen_nat (F sf s : ℕ) (hs : 1 ≤ s) :
    arangeLen 0 ((F : ℤ) - (sf : ℤ)) (s : ℤ) = ((F - sf) + (s - 1)) / s := by
  have h1 : (0 : ℤ) < (s : ℤ) := by exact_mod_cast hs
  have h2 : ((F : ℤ) - (sf : ℤ) - 0).toNat = F - sf := by omega
  rw [arangeLen, if_pos h1, h2, Int.toNat_natCast]

lemma arangeLen_of_le (F sf s : ℕ) (hs : 1 ≤ s) (h : F ≤ sf) :
    arangeLen 0 ((F : ℤ) - (sf : ℤ)) (s : ℤ) = 0 := by
  rw [arangeLen_nat F sf s hs]
  have : F - sf = 0 := by omega
  rw [this]
  exact Nat.div_eq_of_lt (by omega)

lemma aveMSD_eq_specMSD (x : ℕ → ℕ → ℕ → ℚ) (F N sf L : ℕ) :
    aveMSD x F N sf L = specMSD x F N sf L := by
  unfold aveMSD specMSD msdTotal sqDispSum tripleSet msdSize
  rw [Finset.sum_product]
  simp only [Finset.sum_product]
  rw [Finset.sum_comm, Finset.card_product, Finset.card_product, Nat.card_Ico,
    Finset.card_range, Finset.card_range]
  push_cast
  ring

lemma aveAtomMSD_eq_specAtomMSD (x : ℕ → ℕ → ℕ → ℚ) (F sf L a : ℕ) :
    aveAtomMSD x F sf L a = specAtomMSD x F sf L a := by
  unfold aveAtomMSD specAtomMSD sqDispSum pairAxisSet
  rw [Finset.sum_product, Finset.card_product, Nat.card_Ico, Finset.card_range]
  push_cast
  ring

lemma aveMSD_zero_lag (x : ℕ → ℕ → ℕ → ℚ) (F N sf : ℕ) :
    aveMSD x F N sf 0 = 0 := by
  simp [aveMSD, msdTotal, sqDispSum]

lemma aveAtomMSD_zero_lag (x : ℕ → ℕ → ℕ → ℚ) (F sf a : ℕ) :
    aveAtomMSD x F sf 0 a = 0 := by
  simp [aveAtomMSD, sqDispSum]

lemma compute_msd_ok (x : ℕ → ℕ → ℕ → ℚ) (F N : ℕ) (step_jump : ℤ) (sf : ℕ)
    (hs : step_jump ≠ 0) :
    compute_msd x F N step_jump sf =
      .ok ((arange 0 ((F : ℤ) - (sf : ℤ)) step_jump).map
            (fun L => aveMSD x F N sf L.toNat),
          (List.range N).map (fun a =>
            (arange 0 ((F : ℤ) - (sf : ℤ)) step_jump).map
              (fun L => aveAtomMSD x F sf L.toNat a))) := by
  simp [compute_msd, hs]

/-- C2: for every trajectory of shape (F, N, 3) with F ≥ 1, N ≥ 1, every
step_jump ≥ 1 and start_frame < F, the curve entry in column k — the entry for
lag L = k · step_jump — equals 3 times the mean of the squared per-axis
displacements between frames i and i + L over all pair starts i in
[start_frame, F - L), all N particles and the 3 axes; and the atomic matrix
entry of particle a in that column equals the same mean restricted to the
squared displacements of particle a (over pairs and the 3 axes, times 3). -/
theorem compute_msd_lag_formula (x : ℕ → ℕ → ℕ → ℚ) (F N : ℕ) (step_jump : ℤ) (sf : ℕ)
    (hF : 1 ≤ F) (hN : 1 ≤ N) (hstep : 1 ≤ step_jump) (hsf : sf < F)
    (curve : List ℚ) (atomic : List (List ℚ))
    (h : compute_msd x F N step_jump sf = .ok (curve, atomic))
    (k : ℕ) (hk : k < curve.length) :
    curve[k]? = some (specMSD x F N sf (step_jump.toNat * k)) ∧
    ∀ a, a < N → ∃ row, atomic[a]? = some row ∧
      row[k]? = some (specAtomMSD x F sf (step_jump.toNat * k) a) := by
  have hne : step_jump ≠ 0 := by omega
  rw [compute_msd_ok x F N step_jump sf hne, Except.ok.injEq, Prod.mk.injEq] at h
  obtain ⟨hc, ha⟩ := h
  subst hc
  subst ha
  obtain ⟨s, rfl⟩ : ∃ s : ℕ, step_jump = (s : ℤ) :=
    ⟨step_jump.toNat, (Int.toNat_of_nonneg (by omega)).symm⟩
  rw [List.length_map, arange_length] at hk
  have hzsk : ((0 : ℤ) + (s : ℤ) * (k : ℤ)).toNat = s * k := by
    rw [zero_add, ← Nat.cast_mul, Int.toNat_natCast]
  constructor
  · rw [List.getElem?_map, arange_getElem 0 _ _ k hk, Option.map_some', hzsk,
      aveMSD_eq_specMSD, Int.toNat_natCast]
  · intro a haN
    refine ⟨(arange 0 ((F : ℤ) - (sf : ℤ)) (s : ℤ)).map
      (fun L => aveAtomMSD x F sf L.toNat a), ?_, ?_⟩
    · rw [List.getElem?_map, List.getElem?_range haN, Option.map_some']
    · rw [List.getElem?_map, arange_getElem 0 _ _ k hk, Option.map_some', hzsk,
        aveAtomMSD_eq_specAtomMSD, Int.toNat_natCast]

/-- C2 witness: the concrete scenario of the spec, a single particle moving one
nm per frame along one axis over 5 frames, evaluated in column k = 2. -/
theorem compute_msd_lag_formula_witness :
    ([(0 : ℚ), 1, 4, 9, 16] : List ℚ)[2]? = some (specMSD trajX 5 1 0 ((1 : ℤ).toNat * 2)) ∧
    ∀ a, a < 1 → ∃ row, ([[(0 : ℚ), 1, 4, 9, 16]] : List (List ℚ))[a]? = some row ∧
      row[2]? = some (specAtomMSD trajX 5 0 ((1 : ℤ).toNat * 2) a) :=
  compute_msd_lag_formula trajX 5 1 1 0 (by norm_num) (by norm_num) (by norm_num) (by norm_num)
    [0, 1, 4, 9, 16] [[0, 1, 4, 9, 16]]
    (by
      have harr : arange 0 (((5 : ℕ) : ℤ) - ((0 : ℕ) : ℤ)) 1 =
          [((0 : ℕ) : ℤ), ((1 : ℕ) : ℤ), ((2 : ℕ) : ℤ), ((3 : ℕ) : ℤ), ((4 : ℕ) : ℤ)] := by decide
      rw [compute_msd_ok _ _ _ _ _ (by norm_num), harr]
      simp only [List.map_cons, List.map_nil, Int.toNat_ofNat, List.range_succ,
        List.map_append, List.append_assoc, List.nil_append, Int.toNat_zero]
      norm_num [aveMSD, aveAtomMSD, msdTotal, msdSize, sqDispSum, trajX,
        Finset.sum_range_succ, Finset.sum_Ico_eq_sum_range])
    2 (by norm_num)

/-- C6: for every valid input (F ≥ 1, N ≥ 1, step_jump ≥ 1, start_frame < F)
the curve has num_lags = ceil((F - start_frame) / step_jump) entries (here
written with the ceiling division (usable + step - 1) / step), the atomic
matrix has N rows each with num_lags columns, and column k holds the MSD of
lag k · step_jump, so columns are in increasing lag order. -/
theorem compute_msd_shapes (x : ℕ → ℕ → ℕ → ℚ) (F N : ℕ) (step_jump : ℤ) (sf : ℕ)
    (hF : 1 ≤ F) (hN : 1 ≤ N) (hstep : 1 ≤ step_jump) (hsf : sf < F)
    (curve : List ℚ) (atomic : List (List ℚ))
    (h : compute_msd x F N step_jump sf = .ok (curve, atomic)) :
    curve.length = ((F - sf) + (step_jump.toNat - 1)) / step_jump.toNat ∧
    atomic.length = N ∧ (∀ row ∈ atomic, row.length = curve.length) ∧
    ∀ k, k < curve.length →
      curve[k]? = some (aveMSD x F N sf (step_jump.toNat * k)) := by
  have hne : step_jump ≠ 0 := by omega
  rw [compute_msd_ok x F N step_jump sf hne, Except.ok.injEq, Prod.mk.injEq] at h
  obtain ⟨hc, ha⟩ := h
  subst hc
  subst ha
  obtain ⟨s, rfl⟩ : ∃ s : ℕ, step_jump = (s : ℤ) :=
    ⟨step_jump.toNat, (Int.toNat_of_nonneg (by omega)).symm⟩
  have hs1 : 1 ≤ s := by exact_mod_cast hstep
  refine ⟨?_, ?_, ?_, ?_⟩
  · rw [List.length_map, arange_length, arangeLen_nat F sf s hs1, Int.toNat_natCast]
  · rw [List.length_map, List.length_range]
  · intro row hrow
    rw [List.mem_map] at hrow
    obtain ⟨a, _, rfl⟩ := hrow
    rw [List.length_map, List.length_map]
  · intro k hk
    rw [List.length_map, arange_length] at hk
    rw [List.getElem?_map, arange_getElem 0 _ _ k hk, Option.map_some']
    rw [show ((0 : ℤ) + (s : ℤ) * (k : ℤ)).toNat = s * k by
      rw [zero_add, ← Nat.cast_mul, Int.toNat_natCast], Int.toNat_natCast]

/-- C6 witness: F = 5, N = 2, step_jump = 2, start_frame = 1 gives
ceil(4 / 2) = 2 lags and a 2 × 2 atomic matrix. -/
theorem compute_msd_shapes_witness :
    ([(0 : ℚ), 4] : List ℚ).length = ((5 - 1) + ((2 : ℤ).toNat - 1)) / (2 : ℤ).toNat ∧
    ([[(0 : ℚ), 4], [(0 : ℚ), 4]] : List (List ℚ)).length = 2 ∧
    (∀ row ∈ ([[(0 : ℚ), 4], [(0 : ℚ), 4]] : List (List ℚ)),
      row.length = ([(0 : ℚ), 4] : List ℚ).length) ∧
    ∀ k, k < ([(0 : ℚ), 4] : List ℚ).length →
      ([(0 : ℚ), 4] : List ℚ)[k]? = some (aveMSD trajX 5 2 1 ((2 : ℤ).toNat * k)) :=
  compute_msd_shapes trajX 5 2 2 1 (by norm_num) (by norm_num) (by norm_num) (by norm_num)
    [0, 4] [[0, 4], [0, 4]]
    (by
      have harr : arange 0 (((5 : ℕ) : ℤ) - ((1 : ℕ) : ℤ)) 2 = [((0 : ℕ) : ℤ), ((2 : ℕ) : ℤ)] := by decide
      rw [compute_msd_ok _ _ _ _ _ (by norm_num), harr]
      simp only [List.map_cons, List.map_nil, Int.toNat_ofNat, List.range_succ,
        List.map_append, List.append_assoc, List.nil_append, Int.toNat_zero]
      norm_num [aveMSD, aveAtomMSD, msdTotal, msdSize, sqDispSum, trajX,
        Finset.sum_range_succ, Finset.sum_Ico_eq_sum_range])

/-- C7: with at least one usable frame (start_frame < F) and a valid step, the
first evaluated lag is 0: the curve starts with 0 and every atomic row starts
with 0, and no failure occurs. -/
theorem compute_msd_zero_lag (x : ℕ → ℕ → ℕ → ℚ) (F N : ℕ) (step_jump : ℤ) (sf : ℕ)
    (hstep : 1 ≤ step_jump) (hsf : sf < F)
    (curve : List ℚ) (atomic : List (List ℚ))
    (h : compute_msd x F N step_jump sf = .ok (curve, atomic)) :
    curve[0]? = some 0 ∧ ∀ row ∈ atomic, row[0]? = some 0 := by
  have hne : step_jump ≠ 0 := by omega
  rw [compute_msd_ok x F N step_jump sf hne, Except.ok.injEq, Prod.mk.injEq] at h
  obtain ⟨hc, ha⟩ := h
  subst hc
  subst ha
  obtain ⟨s, rfl⟩ : ∃ s : ℕ, step_jump = (s : ℤ) :=
    ⟨step_jump.toNat, (Int.toNat_of_nonneg (by omega)).symm⟩
  have hs1 : 1 ≤ s := by exact_mod_cast hstep
  have hlen : 0 < arangeLen 0 ((F : ℤ) - (sf : ℤ)) (s : ℤ) := by
    rw [arangeLen_nat F sf s hs1]
    exact (Nat.one_le_div_iff (by omega)).mpr (by omega)
  have hval : ((0 : ℤ) + (s : ℤ) * ((0 : ℕ) : ℤ)).toNat = 0 := by
    rw [Nat.cast_zero, mul_zero, add_zero, Int.toNat_zero]
  constructor
  · rw [List.getElem?_map, arange_getElem 0 _ _ 0 hlen, Option.map_some', hval,
      aveMSD_zero_lag]
  · intro row hrow
    rw [List.mem_map] at hrow
    obtain ⟨a, _, rfl⟩ := hrow
    rw [List.getElem?_map, arange_getElem 0 _ _ 0 hlen, Option.map_some', hval,
      aveAtomMSD_zero_lag]

/-- C7 witness: three frames, two particles, step 1: curve and both atomic rows
start with a zero entry at lag 0. -/
theorem compute_msd_zero_lag_witness :
    ([(0 : ℚ), 1, 4] : List ℚ)[0]? = some 0 ∧
    ∀ row ∈ ([[(0 : ℚ), 1, 4], [(0 : ℚ), 1, 4]] : List (List ℚ)), row[0]? = some 0 :=
  compute_msd_zero_lag trajX 3 2 1 0 (by norm_num) (by norm_num)
    [0, 1, 4] [[0, 1, 4], [0, 1, 4]]
    (by
      have harr : arange 0 (((3 : ℕ) : ℤ) - ((0 : ℕ) : ℤ)) 1 =
          [((0 : ℕ) : ℤ), ((1 : ℕ) : ℤ), ((2 : ℕ) : ℤ)] := by decide
      rw [compute_msd_ok _ _ _ _ _ (by norm_num), harr]
      simp only [List.map_cons, List.map_nil, Int.toNat_ofNat, List.range_succ,
        List.map_append, List.append_assoc, List.nil_append, Int.toNat_zero]
      norm_num [aveMSD, aveAtomMSD, msdTotal, msdSize, sqDispSum, trajX,
        Finset.sum_range_succ, Finset.sum_Ico_eq_sum_range])

/-- C10: when start_frame ≥ F (and the step is valid) the lag sequence is
empty, the per-lag loop never runs, and compute_msd returns without raising: an
empty curve together with N empty rows. -/
theorem compute_msd_start_frame_past_end (x : ℕ → ℕ → ℕ → ℚ) (F N : ℕ)
    (step_jump : ℤ) (sf : ℕ) (hstep : 1 ≤ step_jump) (hsf : F ≤ sf) :
    compute_msd x F N step_jump sf = .ok ([], List.replicate N []) := by
  have hne : step_jump ≠ 0 := by omega
  rw [compute_msd_ok x F N step_jump sf hne]
  obtain ⟨s, rfl⟩ : ∃ s : ℕ, step_jump = (s : ℤ) :=
    ⟨step_jump.toNat, (Int.toNat_of_nonneg (by omega)).symm⟩
  have hs1 : 1 ≤ s := by exact_mod_cast hstep
  have harr : arange 0 ((F : ℤ) - (sf : ℤ)) (s : ℤ) = [] := by
    rw [arange, arangeLen_of_le F sf s hs1 hsf]
    rfl
  rw [harr]
  simp

/-- C10 witness: a 2-frame trajectory asked to start at frame 5 yields the
empty curve and a 3 × 0 atomic matrix. -/
theorem compute_msd_start_frame_past_end_witness :
    compute_msd trajX 2 3 1 5 = .ok ([], List.replicate 3 []) :=
  compute_msd_start_frame_past_end trajX 2 3 1 5 (by norm_num) (by norm_num)

/-- C1: the fit window is NOT [round(n·lower), round(n·upper)): the source
computes both bounds from the lower fraction (frac_range[0] appears twice on
source line 99). At n = 10, frac_range = (1/5, 1/2) the code yields the window
(2, 2), while round(n·upper) = 5, so the window end is not derived from
upper. -/
theorem frame_bound_ignores_upper :
    frame_bound 10 (1/5, 1/2) = (2, 2) ∧ pyRound ((10 : ℚ) * (1/2)) = 5 ∧
    (frame_bound 10 (1/5, 1/2)).2 ≠ pyRound ((10 : ℚ) * (1/2)) := by
  norm_num [frame_bound, pyRound]

/-- C3: on the perfectly linear curve MSD(t) = 6·t (D_true = 1) with times
0..7 and the non-degenerate frac_range (1/4, 3/4), fit_d does not return
100·D_true: both window bounds are round(8·1/4) = 2, the slice is empty, and
the fit fails with the empty-vector error from polyfit. -/
theorem fit_d_linear_curve_errors :
    fit_d [0, 6, 12, 18, 24, 30, 36, 42] [0, 1, 2, 3, 4, 5, 6, 7] (1/4, 3/4) =
      .error .emptyVector := by
  norm_num [fit_d, frame_bound, pyRound, pySlice, pyIndex, polyfit1, Except.map]

/-- C4: whatever slope s the window fit produces, the value returned by fit_d
is slope_to_D s = (s / 6) · 100, the conversion constant being exactly
10^14 / 10^12 = 100; and fit_d is precisely that conversion mapped over the
result of the degree-1 fit of the sliced window. -/
theorem fit_d_unit_conversion :
    (∀ s : ℚ, slope_to_D s = s / 6 * 100) ∧ ((10 : ℚ) ^ 14 / (10 : ℚ) ^ 12 = 100) ∧
    ∀ MSD times fr, fit_d MSD times fr =
      Except.map (fun coeff => slope_to_D coeff.1)
        (polyfit1 (pySlice times (frame_bound MSD.length fr).1 (frame_bound MSD.length fr).2)
          (pySlice MSD (frame_bound MSD.length fr).1 (frame_bound MSD.length fr).2)) := by
  refine ⟨fun s => ?_, by norm_num, fun MSD times fr => rfl⟩
  simp only [slope_to_D]
  norm_num

/-- C5: at the zero-width frac_range (3/10, 3/10) on a 10-point curve the fit
window is empty and fit_d fails — but with the empty-vector TypeError raised
inside polyfit, not with a dedicated InsufficientDataError (no such error
exists anywhere in the code, which performs no window validation). -/
theorem fit_d_zero_width_window :
    fit_d [0, 1, 4, 9, 16, 25, 36, 49, 64, 81] [0, 1, 2, 3, 4, 5, 6, 7, 8, 9] (3/10, 3/10) =
      .error .emptyVector := by
  norm_num [fit_d, frame_bound, pyRound, pySlice, pyIndex, polyfit1, Except.map]

/-- C8: no entry validation exists. compute_msd accepts step_jump = -1 < 1 and
silently returns empty results instead of raising an InvalidRangeError, and
fit_d on the inverted frac_range (3/5, 2/5) fails with the polyfit
empty-vector TypeError — not with an InvalidRangeError raised at entry. -/
theorem no_entry_validation :
    compute_msd trajX 5 1 (-1) 0 = .ok ([], [[]]) ∧
    fit_d [0, 1, 4, 9, 16] [0, 1, 2, 3, 4] (3/5, 2/5) = .error .emptyVector := by
  constructor
  · have harr : arange 0 (((5 : ℕ) : ℤ) - ((0 : ℕ) : ℤ)) (-1) = [] := by decide
    rw [compute_msd_ok _ _ _ _ _ (by norm_num), harr]
    simp [List.range_succ]
  · norm_num [fit_d, frame_bound, pyRound, pySlice, pyIndex, polyfit1, Except.map]
